import Mathlib

/-!
Verification of the `pmash` atime-based prerequisite auditor (`src/pmash.c`)
against its natural-language specification.

The C program is shallowly embedded here:

* `struct timespec` becomes `Timespec` with `Int` seconds and nanoseconds
  (`time_t` is a signed integral type, so negative values are representable).
* `pathentry_s` mirrors the C struct: `times1[0]/times1[1]` are the pre-run
  (forced atime, original mtime), `times2[0]/times2[1]` the post-run
  (observed atime, observed mtime).
* The classification in `post_walk` (pmash.c:181-222) becomes the pure
  function `post_walk_prereq` plus the output construction `post_walk_output`.
* The libc `tsearch`/`tfind`/`twalk` binary search tree becomes `Tree` with
  `tsearchIns` (insert-if-absent, as POSIX tsearch never replaces an existing
  node), `tfindPath`, and the in-order traversal `inorder`.
* The straight-line probe in `main` (pmash.c:273-307) becomes the step
  machine `runProbe`, with an optional first-failing-syscall index modelling
  an `insist` failure (which calls `exit` immediately).
-/

namespace Pmaudit

/-- `struct timespec`: seconds and nanoseconds, both signed (`time_t` and
`long` are signed in C, so pre-epoch values are representable). -/
structure Timespec where
  tv_sec : Int
  tv_nsec : Int
deriving DecidableEq, Repr

/-- The C `pathentry_s` struct (pmash.c:53-57). `times1_0` is `times1[0]`
(pre-run forced atime), `times1_1` is `times1[1]` (pre-run original mtime),
`times2_0` is `times2[0]` (post-run observed atime), `times2_1` is
`times2[1]` (post-run observed mtime). -/
structure pathentry_s where
  path : String
  times1_0 : Timespec
  times1_1 : Timespec
  times2_0 : Timespec
  times2_1 : Timespec
deriving DecidableEq, Repr

/-- The prerequisite decision of `post_walk` (pmash.c:188-203), transcribed
clause for clause: each `if` whose branch falls through yields `prereq = 0`,
and only the final `else` sets `prereq = 1`. -/
def post_walk_prereq (p : pathentry_s) : Bool :=
  if p.times2_1.tv_sec > p.times1_1.tv_sec then
    false
  else if p.times2_1.tv_sec = p.times1_1.tv_sec ∧ p.times2_1.tv_nsec > p.times1_1.tv_nsec then
    false
  else if p.times2_0.tv_sec ≤ p.times1_0.tv_sec then
    false
  else if p.times2_0.tv_sec = p.times1_0.tv_sec ∧ p.times2_0.tv_nsec ≤ p.times1_0.tv_nsec then
    false
  else
    true

/-- Modelled from the spec (§4.5 decision rule), for comparison with the
code's `post_walk_prereq`: clause 1, mtime seconds strictly advanced — not a
prerequisite; clause 2, mtime seconds equal and nanoseconds advanced — not a
prerequisite; clause 3, atime seconds at most the forced-atime seconds — not
a prerequisite; clause 4, atime seconds equal to the forced-atime seconds and
nanoseconds at most the forced nanoseconds — not a prerequisite; clause 5,
otherwise a prerequisite. First matching clause wins. -/
def spec_decision (p : pathentry_s) : Bool :=
  if p.times2_1.tv_sec > p.times1_1.tv_sec then false
  else if p.times2_1.tv_sec = p.times1_1.tv_sec ∧ p.times2_1.tv_nsec > p.times1_1.tv_nsec then false
  else if p.times2_0.tv_sec ≤ p.times1_0.tv_sec then false
  else if p.times2_0.tv_sec = p.times1_0.tv_sec ∧ p.times2_0.tv_nsec ≤ p.times1_0.tv_nsec then false
  else true

/-- One line written to the output stream `fp` by `post_walk`
(pmash.c:204-220).  A `prereqLine` is the bare path, followed by the
timestamp comment when verbosity is nonzero, then a newline; a `diagLine` is
the `##`-commented diagnostic emitted for a non-prerequisite entry in verbose
mode.  Every printed field of either line comes from the entry `p`, so the
entry itself (plus the verbosity flag) determines the rendered text. -/
inductive OutLine where
  | prereqLine (p : pathentry_s) (annotated : Bool)
  | diagLine (p : pathentry_s)
deriving DecidableEq, Repr

/-- The path the line was produced from (both line forms print `p->path`). -/
def OutLine.linePath : OutLine → String
  | .prereqLine p _ => p.path
  | .diagLine p => p.path

/-- What `post_walk` writes for one visited entry (pmash.c:204-220):
a prerequisite line for prerequisite entries (annotated when `verbosity` is
nonzero), a diagnostic line for the rest in verbose mode, nothing otherwise. -/
def post_walk_visit (verbosity : Nat) (p : pathentry_s) : Option OutLine :=
  if post_walk_prereq p then
    some (.prereqLine p (verbosity ≠ 0))
  else if verbosity ≠ 0 then
    some (.diagLine p)
  else
    none

/-- The sequence of lines produced by visiting `entries` in order. -/
def post_walk_output (entries : List pathentry_s) (verbosity : Nat) : List OutLine :=
  entries.filterMap (post_walk_visit verbosity)

/-- The paths carried by the prerequisite lines of an output, in order. -/
def prereqPaths (out : List OutLine) : List String :=
  out.filterMap fun l =>
    match l with
    | .prereqLine p _ => some p.path
    | .diagLine _ => none

/-- The comparator handed to `tsearch`/`tfind`/`twalk` (pmash.c:96-100):
`strcmp` on the two entries' paths, as a three-way ordering.  `strcmp`
compares the strings pointwise and lexicographically, which is the
lexicographic order on the underlying character lists. -/
def pathcmp (a b : String) : Ordering :=
  if a.data < b.data then .lt
  else if a.data = b.data then .eq
  else .gt

/-- The binary search tree managed by libc `tsearch` (`tree1` and `tree2`
in pmash.c:59 hold such trees of `pathentry_s` records). -/
inductive Tree where
  | leaf
  | node (l : Tree) (e : pathentry_s) (r : Tree)
deriving DecidableEq, Repr

/-- POSIX `tsearch` with comparator `pathcmp`: descend by the comparison;
when an entry with an equal key is already present, `tsearch` returns the
existing node and does NOT insert or replace, so the tree is unchanged. -/
def tsearchIns (e : pathentry_s) : Tree → Tree
  | .leaf => .node .leaf e .leaf
  | .node l x r =>
    match pathcmp e.path x.path with
    | .lt => .node (tsearchIns e l) x r
    | .eq => .node l x r
    | .gt => .node l x (tsearchIns e r)

/-- POSIX `tfind` with comparator `pathcmp`, looking up by path
(pmash.c:169). -/
def tfindPath (k : String) : Tree → Option pathentry_s
  | .leaf => none
  | .node l x r =>
    match pathcmp k x.path with
    | .lt => tfindPath k l
    | .eq => some x
    | .gt => tfindPath k r

/-- The visiting order of `twalk` (pmash.c:340): `post_walk` acts exactly on
`postorder` and `leaf` visits, which is the in-order traversal of the tree. -/
def inorder : Tree → List pathentry_s
  | .leaf => []
  | .node l x r => inorder l ++ x :: inorder r

/-- Repeated `tsearch` insertion, in the order the walk produced entries. -/
def insertAll (t : Tree) (es : List pathentry_s) : Tree :=
  es.foldl (fun t e => tsearchIns e t) t

/-- `f` holds at every entry of the tree. -/
def allTree (f : pathentry_s → Bool) : Tree → Bool
  | .leaf => true
  | .node l x r => f x && allTree f l && allTree f r

/-- The binary-search-tree invariant for path keys (maintained by
`tsearch` with comparator `pathcmp`). -/
def isBST : Tree → Bool
  | .leaf => true
  | .node l x r =>
    allTree (fun e => decide (e.path.data < x.path.data)) l &&
    allTree (fun e => decide (x.path.data < e.path.data)) r &&
    isBST l && isBST r

/-- The tree contains an entry keyed by `k`. -/
def containsPath (k : String) (t : Tree) : Bool :=
  (tfindPath k t).isSome

/-- The stat fields the program reads: `st_atim`/`st_atime` and
`st_mtim`/`st_mtime` (seconds and nanoseconds of each). -/
structure FileStat where
  st_atime : Timespec
  st_mtime : Timespec
deriving DecidableEq, Repr

/-- `strstr(s, pat) != NULL`: `pat` occurs contiguously inside `s`. -/
def hasInfix (s pat : String) : Bool :=
  decide (pat.toList <:+: s.toList)

/-- The exclusion filter shared by both walkers (pmash.c:115, 151): any
path containing `.git`, `.svn` or `.swp` as a substring is skipped. -/
def skipPath (fpath : String) : Bool :=
  hasInfix fpath ".git" || hasInfix fpath ".svn" || hasInfix fpath ".swp"

/-- Leading `./` stripping (pmash.c:119-121, 155-157): if the first two
characters are `.` and `/`, advance past them. -/
def normalizePath (fpath : String) : String :=
  match fpath.toList with
  | '.' :: '/' :: rest => String.mk rest
  | _ => fpath

/-- The `times1` array built by `nftw_pre_callback` (pmash.c:127-130), which
is also the `utimensat` argument: `times1[0]` (the atime to set) is
`(st_mtime - 1, 0)` and `times1[1]` (the mtime to set) is
`(st_mtime, st_mtim.tv_nsec)`, i.e. the file's current mtime. -/
def pre_utimensat_arg (sb : FileStat) : Timespec × Timespec :=
  (⟨sb.st_mtime.tv_sec - 1, 0⟩, ⟨sb.st_mtime.tv_sec, sb.st_mtime.tv_nsec⟩)

/-- Effect of `utimensat(AT_FDCWD, path, times, 0)` on the file's stat:
the (atime, mtime) pair becomes exactly the argument pair (no `UTIME_OMIT`
is used here). -/
def applyUtimensat (sb : FileStat) (arg : Timespec × Timespec) : FileStat :=
  { sb with st_atime := arg.1, st_mtime := arg.2 }

/-- `nftw_pre_callback` (pmash.c:102-135): ignore non-regular files
(`tflag != FTW_F`) and excluded paths, strip a leading `./`, build `times1`,
apply it with `utimensat`, and `tsearch`-insert the entry into `tree1`
(`times2` is zeroed by `calloc`).  Returns the new tree together with the
`utimensat` action performed — the normalized path and the (atime, mtime)
argument — or `none` when the file was not recorded. -/
def nftw_pre_callback (tree1 : Tree) (fpath : String) (sb : FileStat)
    (isFile : Bool) : Tree × Option (String × Timespec × Timespec) :=
  if isFile = false then (tree1, none)
  else if skipPath fpath then (tree1, none)
  else
    let p := normalizePath fpath
    let arg := pre_utimensat_arg sb
    let e : pathentry_s := ⟨p, arg.1, arg.2, ⟨0, 0⟩, ⟨0, 0⟩⟩
    (tsearchIns e tree1, some (p, arg))

/-- The entry built by `nftw_post_callback` (pmash.c:161-175) for a recorded
path: `times1` starts as the sentinel `((-2,0), (-1,0))` (nanoseconds zeroed
by `calloc`), `times2` is the observed (atime, mtime); when `tfind` locates a
pre-run entry its `times1` is copied over the sentinel. -/
def post_entry (tree1 : Tree) (p : String) (sb : FileStat) : pathentry_s :=
  let base : pathentry_s := ⟨p, ⟨-2, 0⟩, ⟨-1, 0⟩, sb.st_atime, sb.st_mtime⟩
  match tfindPath p tree1 with
  | some p1 => { base with times1_0 := p1.times1_0, times1_1 := p1.times1_1 }
  | none => base

/-- `nftw_post_callback` (pmash.c:137-179): same filtering and normalization
as the pre-run callback, then `tsearch`-insert the merged entry into
`tree2`. -/
def nftw_post_callback (tree1 tree2 : Tree) (fpath : String) (sb : FileStat)
    (isFile : Bool) : Tree :=
  if isFile = false then tree2
  else if skipPath fpath then tree2
  else
    tsearchIns (post_entry tree1 (normalizePath fpath) sb) tree2

/-- One visit delivered by `nftw` to a callback: the path, the stat buffer,
and whether `tflag == FTW_F` (a regular file). -/
structure WalkFile where
  fpath : String
  sb : FileStat
  isFile : Bool
deriving DecidableEq, Repr

/-- `tree1` after the pre-run walks over all watch directories
(pmash.c:309): the fold of `nftw_pre_callback` over the visited files. -/
def pre_tree (preFiles : List WalkFile) : Tree :=
  preFiles.foldl (fun t f => (nftw_pre_callback t f.fpath f.sb f.isFile).1) .leaf

/-- `tree2` after the post-run walks (pmash.c:336-338): the fold of
`nftw_post_callback` over the files visited after the command ran. -/
def post_tree (tree1 : Tree) (postFiles : List WalkFile) : Tree :=
  postFiles.foldl (fun t f => nftw_post_callback tree1 t f.fpath f.sb f.isFile) .leaf

/-- Observable outcome of the tail of `main`: the lines written to `fp`, the
process exit status, and whether the outfile was unlinked at the end. -/
structure MainResult where
  output : List OutLine
  rc : Nat
  outfileDeleted : Bool
deriving DecidableEq, Repr

/-- The pipeline of `main` after option parsing, with all `insist`ed
syscalls succeeding (pmash.c:273-351): pre-run walks build `tree1`;
`system(cmdstr)` returns `cmdStatus` and a nonzero value sets
`rc = EXIT_FAILURE` (pmash.c:332-334) without stopping anything; the
post-run walks build `tree2`; `twalk(tree2, post_walk)` emits the output;
finally, when an outfile was given, it is unlinked exactly when its size is
zero (pmash.c:342-349) — every emitted line writes at least a newline, so
the size is zero iff no line was emitted. -/
def run_main (preFiles postFiles : List WalkFile) (cmdStatus : Int)
    (verbosity : Nat) (outfileGiven : Bool) : MainResult :=
  let tree1 := pre_tree preFiles
  let rc : Nat := if cmdStatus ≠ 0 then 1 else 0
  let tree2 := post_tree tree1 postFiles
  let out := post_walk_output (inorder tree2) verbosity
  { output := out
    rc := rc
    outfileDeleted := outfileGiven && out.isEmpty }

/-- One syscall of the timestamp probe, as recorded in the probe trace. -/
inductive ProbeEvent where
  | openDirE
  | closeDirE
  | createE (name : String)
  | writeE (payload : String)
  | fstatE
  | futimensE (atime : Timespec) (mtimeOmitted : Bool)
  | closeE
  | openE
  | readE
  | statE
  | unlinkE
deriving DecidableEq, Repr

/-- Filesystem state relevant to the probe: whether the temp file currently
exists, its times and content, how many times it was created and unlinked,
and the trace of syscalls performed so far. -/
structure ProbeState where
  tmpExists : Bool
  tmpAtime : Timespec
  tmpMtime : Timespec
  tmpContent : String
  createCount : Nat
  unlinkCount : Nat
  trace : List ProbeEvent
deriving DecidableEq, Repr

/-- The state before the probe runs: no temp file. -/
def probeInit : ProbeState :=
  { tmpExists := false
    tmpAtime := ⟨0, 0⟩
    tmpMtime := ⟨0, 0⟩
    tmpContent := ""
    createCount := 0
    unlinkCount := 0
    trace := [] }

/-- The timestamp comparison of the final probe check (pmash.c:303-305):
`a < m` by seconds, or by nanoseconds when the seconds are equal. -/
def tsLtB (a m : Timespec) : Bool :=
  decide (a.tv_sec < m.tv_sec ∨ (a.tv_sec = m.tv_sec ∧ a.tv_nsec < m.tv_nsec))

/-- The per-watch-directory timestamp probe (pmash.c:280-307), one `insist`ed
syscall at a time, in program order:

0. `open(path, O_RDONLY)` on the directory, 1. `close`, 2. `asprintf` of the
temp name `path/audit.PID.tmp`, 3. `open(O_CREAT|O_WRONLY|O_EXCL)` creating
the temp file, 4. `write` of the payload `"data\n"`, 5. `fstat`,
6. `futimens` with `otimes[0] = (ostats.st_mtime - 1, 0)` and
`otimes[1].tv_nsec = UTIME_OMIT` (so only the atime is rewritten; the mtime
is untouched), 7. `close`, 8. `open(O_RDONLY)`, 9. `read`, 10. `close`,
11. `stat`, 12. `unlink`, then the atime-support check which `die`s when the
final atime is behind the mtime.

`failAt = some k` models the k-th syscall failing: `insist` prints the error
and calls `exit(EXIT_FAILURE)` immediately, so earlier syscalls all ran and
later ones never run.  `creationTime` is the atime = mtime the filesystem
stamps on the fresh temp file; `postReadAtime` is the atime observed by the
final `stat` (whether the read advanced it is exactly what the probe tests,
so it is an environment input).  Returns the filesystem state at process
exit, paired with `true` iff the probe completed without `insist` failure
and without `die`. -/
def runProbe (dir pid : String) (creationTime postReadAtime : Timespec)
    (failAt : Option Nat) : ProbeState × Bool :=
  let ok : Nat → Bool := fun k => failAt != some k
  let s0 := probeInit
  if ok 0 = false then (s0, false) else
  let sa := { s0 with trace := s0.trace ++ [.openDirE] }
  if ok 1 = false then (sa, false) else
  let sb := { sa with trace := sa.trace ++ [.closeDirE] }
  if ok 2 = false then (sb, false) else
  let name := dir ++ "/audit." ++ pid ++ ".tmp"
  if ok 3 = false then (sb, false) else
  let s1 := { sb with
    tmpExists := true
    tmpAtime := creationTime
    tmpMtime := creationTime
    createCount := sb.createCount + 1
    trace := sb.trace ++ [.createE name] }
  if ok 4 = false then (s1, false) else
  let s2 := { s1 with tmpContent := "data\n", trace := s1.trace ++ [.writeE "data\n"] }
  if ok 5 = false then (s2, false) else
  let s3 := { s2 with trace := s2.trace ++ [.fstatE] }
  if ok 6 = false then (s3, false) else
  let fat : Timespec := ⟨s3.tmpMtime.tv_sec - 1, 0⟩
  let s4 := { s3 with tmpAtime := fat, trace := s3.trace ++ [.futimensE fat true] }
  if ok 7 = false then (s4, false) else
  let s5 := { s4 with trace := s4.trace ++ [.closeE] }
  if ok 8 = false then (s5, false) else
  let s6 := { s5 with trace := s5.trace ++ [.openE] }
  if ok 9 = false then (s6, false) else
  let s7 := { s6 with tmpAtime := postReadAtime, trace := s6.trace ++ [.readE] }
  if ok 10 = false then (s7, false) else
  let s8 := { s7 with trace := s7.trace ++ [.closeE] }
  if ok 11 = false then (s8, false) else
  let s9 := { s8 with trace := s8.trace ++ [.statE] }
  if ok 12 = false then (s9, false) else
  let s10 := { s9 with
    tmpExists := false
    unlinkCount := s9.unlinkCount + 1
    trace := s9.trace ++ [.unlinkE] }
  (s10, !tsLtB s9.tmpAtime s9.tmpMtime)

/-! ### Helper lemmas about `pathcmp` and the search tree -/

theorem str_ext {a b : String} (h : a.data = b.data) : a = b := by
  cases a
  cases b
  exact congrArg String.mk h

theorem pathcmp_lt_iff {a b : String} : pathcmp a b = .lt ↔ a.data < b.data := by
  unfold pathcmp
  rcases lt_trichotomy a.data b.data with h | h | h
  · simp [h]
  · simp [h, lt_irrefl]
  · simp [asymm h, (ne_of_gt h), h]

theorem pathcmp_eq_iff {a b : String} : pathcmp a b = .eq ↔ a.data = b.data := by
  unfold pathcmp
  rcases lt_trichotomy a.data b.data with h | h | h
  · simp [h, ne_of_lt h]
  · simp [h, lt_irrefl]
  · simp [asymm h, (ne_of_gt h), h]

theorem pathcmp_gt_iff {a b : String} : pathcmp a b = .gt ↔ b.data < a.data := by
  unfold pathcmp
  rcases lt_trichotomy a.data b.data with h | h | h
  · simp [h, asymm h, ne_of_lt h]
  · simp [h, lt_irrefl]
  · simp [asymm h, (ne_of_gt h), h]

theorem allTree_tsearchIns {f : pathentry_s → Bool} {t : Tree} {e : pathentry_s}
    (ht : allTree f t = true) (he : f e = true) :
    allTree f (tsearchIns e t) = true := by
  induction t with
  | leaf => simp [tsearchIns, allTree, he]
  | node l x r ihl ihr =>
    simp only [allTree, Bool.and_eq_true] at ht
    obtain ⟨⟨hx, hl⟩, hr⟩ := ht
    cases hc : pathcmp e.path x.path <;>
      simp [tsearchIns, hc, allTree, hx, hl, hr, ihl hl, ihr hr]

theorem allTree_mem {f : pathentry_s → Bool} {t : Tree}
    (ht : allTree f t = true) {x : pathentry_s} (hx : x ∈ inorder t) :
    f x = true := by
  induction t with
  | leaf => simp [inorder] at hx
  | node l y r ihl ihr =>
    simp only [allTree, Bool.and_eq_true] at ht
    obtain ⟨⟨hy, hl⟩, hr⟩ := ht
    simp only [inorder, List.mem_append, List.mem_cons] at hx
    rcases hx with hx | hx | hx
    · exact ihl hl hx
    · subst hx
      exact hy
    · exact ihr hr hx

theorem isBST_tsearchIns {t : Tree} (ht : isBST t = true) (e : pathentry_s) :
    isBST (tsearchIns e t) = true := by
  induction t with
  | leaf => simp [tsearchIns, isBST, allTree]
  | node l x r ihl ihr =>
    simp only [isBST, Bool.and_eq_true] at ht
    obtain ⟨⟨⟨hal, har⟩, hbl⟩, hbr⟩ := ht
    cases hc : pathcmp e.path x.path with
    | lt =>
      have he : e.path.data < x.path.data := pathcmp_lt_iff.mp hc
      simp only [tsearchIns, hc, isBST, Bool.and_eq_true]
      exact ⟨⟨⟨allTree_tsearchIns hal (decide_eq_true he), har⟩, ihl hbl⟩, hbr⟩
    | eq =>
      simp only [tsearchIns, hc, isBST, Bool.and_eq_true]
      exact ⟨⟨⟨hal, har⟩, hbl⟩, hbr⟩
    | gt =>
      have he : x.path.data < e.path.data := pathcmp_gt_iff.mp hc
      simp only [tsearchIns, hc, isBST, Bool.and_eq_true]
      exact ⟨⟨⟨hal, allTree_tsearchIns har (decide_eq_true he)⟩, hbl⟩, ihr hbr⟩

/-- Strict ordering of entries by path: the `strcmp` key order of the store. -/
def pathLt (a b : pathentry_s) : Prop := a.path.data < b.path.data

instance : IsAntisymm pathentry_s pathLt :=
  ⟨fun _ _ h h' => absurd h' (lt_asymm h)⟩

theorem pairwise_inorder {t : Tree} (ht : isBST t = true) :
    (inorder t).Pairwise pathLt := by
  induction t with
  | leaf => simp [inorder]
  | node l x r ihl ihr =>
    simp only [isBST, Bool.and_eq_true] at ht
    obtain ⟨⟨⟨hal, har⟩, hbl⟩, hbr⟩ := ht
    simp only [inorder]
    rw [List.pairwise_append]
    refine ⟨ihl hbl, ?_, ?_⟩
    · rw [List.pairwise_cons]
      refine ⟨fun b hb => ?_, ihr hbr⟩
      show x.path.data < b.path.data
      exact of_decide_eq_true (allTree_mem har hb)
    · intro a ha b hb
      have hax : a.path.data < x.path.data := of_decide_eq_true (allTree_mem hal ha)
      rcases List.mem_cons.mp hb with rfl | hb
      · exact hax
      · show a.path.data < b.path.data
        exact lt_trans hax (of_decide_eq_true (allTree_mem har hb))

theorem mem_inorder_tsearchIns {t : Tree} {e x : pathentry_s}
    (hx : x ∈ inorder (tsearchIns e t)) : x = e ∨ x ∈ inorder t := by
  induction t with
  | leaf =>
    simp [tsearchIns, inorder] at hx
    exact Or.inl hx
  | node l y r ihl ihr =>
    cases hc : pathcmp e.path y.path with
    | lt =>
      simp only [tsearchIns, hc, inorder, List.mem_append, List.mem_cons] at hx
      rcases hx with hx | hx | hx
      · rcases ihl hx with h | h
        · exact Or.inl h
        · exact Or.inr (by simp [inorder, h])
      · exact Or.inr (by simp [inorder, hx])
      · exact Or.inr (by simp [inorder, hx])
    | eq =>
      simp only [tsearchIns, hc] at hx
      exact Or.inr hx
    | gt =>
      simp only [tsearchIns, hc, inorder, List.mem_append, List.mem_cons] at hx
      rcases hx with hx | hx | hx
      · exact Or.inr (by simp [inorder, hx])
      · exact Or.inr (by simp [inorder, hx])
      · rcases ihr hx with h | h
        · exact Or.inl h
        · exact Or.inr (by simp [inorder, h])

theorem inorder_tsearchIns_perm {t : Tree} {e : pathentry_s}
    (he : e.path ∉ (inorder t).map pathentry_s.path) :
    (inorder (tsearchIns e t)).Perm (e :: inorder t) := by
  induction t with
  | leaf => simp [tsearchIns, inorder]
  | node l x r ihl ihr =>
    simp only [inorder, List.map_append, List.map_cons, List.mem_append,
      List.mem_cons] at he
    push_neg at he
    obtain ⟨hel, hex, her⟩ := he
    cases hc : pathcmp e.path x.path with
    | lt =>
      simp only [tsearchIns, hc, inorder]
      have h1 := (ihl hel).append_right (x :: inorder r)
      rw [List.cons_append] at h1
      exact h1
    | eq =>
      exact absurd (str_ext (pathcmp_eq_iff.mp hc)) hex
    | gt =>
      simp only [tsearchIns, hc, inorder]
      have h1 : (x :: inorder (tsearchIns e r)).Perm (x :: e :: inorder r) :=
        (ihr her).cons x
      have h2 : (x :: e :: inorder r).Perm (e :: x :: inorder r) :=
        List.Perm.swap e x _
      have h3 := List.Perm.append_left (inorder l) (h1.trans h2)
      exact h3.trans List.perm_middle

theorem inorder_insertAll_perm (es : List pathentry_s) : ∀ t : Tree,
    ((inorder t).map pathentry_s.path ++ es.map pathentry_s.path).Nodup →
    (inorder (insertAll t es)).Perm (inorder t ++ es) := by
  induction es with
  | nil =>
    intro t _
    simp [insertAll]
  | cons e es ih =>
    intro t h
    simp only [List.map_cons] at h
    have hnotin : e.path ∉ (inorder t).map pathentry_s.path := by
      intro hmem
      have := (List.nodup_append.mp h).2.2
      exact this hmem (List.mem_cons_self _ _)
    have hperm1 : (inorder (tsearchIns e t)).Perm (e :: inorder t) :=
      inorder_tsearchIns_perm hnotin
    have hpermAll :
        ((inorder (tsearchIns e t)).map pathentry_s.path ++
          es.map pathentry_s.path).Perm
        ((inorder t).map pathentry_s.path ++
          e.path :: es.map pathentry_s.path) := by
      have hmap := (hperm1.map pathentry_s.path).append_right
        (es.map pathentry_s.path)
      rw [List.map_cons, List.cons_append] at hmap
      exact hmap.trans List.perm_middle.symm
    have h' : ((inorder (tsearchIns e t)).map pathentry_s.path ++
        es.map pathentry_s.path).Nodup := hpermAll.nodup_iff.mpr h
    have hrec := ih (tsearchIns e t) h'
    have h2 := hperm1.append_right es
    rw [List.cons_append] at h2
    exact (hrec.trans h2).trans List.perm_middle.symm

theorem isBST_insertAll (es : List pathentry_s) :
    ∀ t : Tree, isBST t = true → isBST (insertAll t es) = true := by
  induction es with
  | nil =>
    intro t h
    exact h
  | cons e es ih =>
    intro t h
    exact ih _ (isBST_tsearchIns h e)

theorem prereqPaths_post_walk_output (entries : List pathentry_s) (v : Nat) :
    prereqPaths (post_walk_output entries v) =
      (entries.filter post_walk_prereq).map pathentry_s.path := by
  induction entries with
  | nil => rfl
  | cons p es ih =>
    by_cases hp : post_walk_prereq p = true
    · simp [post_walk_output, post_walk_visit, hp, prereqPaths,
        List.filter_cons, List.filterMap_cons, ← ih]
    · by_cases hv : v ≠ 0 <;>
        simp [post_walk_output, post_walk_visit, hp, hv, prereqPaths,
          List.filter_cons, List.filterMap_cons, ← ih]

/-! ### Claims -/

/-- C1: the classifier decides the prerequisite verdict by exactly the
spec's five-clause precedence (first matching clause wins), and exactly the
prerequisite entries have their path written to the output sink, one
prerequisite line per such entry, in visiting order. -/
theorem post_walk_matches_spec_rule (entries : List pathentry_s) (verbosity : Nat) :
    (∀ p : pathentry_s, post_walk_prereq p = spec_decision p) ∧
    prereqPaths (post_walk_output entries verbosity) =
      (entries.filter post_walk_prereq).map pathentry_s.path := by
  exact ⟨fun _ => rfl, prereqPaths_post_walk_output entries verbosity⟩

/-- C3 counterexample: a file first observed in the post-run walk, with
sentinel `preTimes`, IS classified as a prerequisite when its observed
post-run mtime is `(-1, 0)` (a representable pre-epoch `time_t` value) and
its atime is `(0, 0)`: no clause of the decision rule excludes it.  This
refutes "never reports it as a prerequisite, whatever its observed post-run
atime and mtime are". -/
theorem new_file_sentinel_cex :
    post_walk_prereq (post_entry .leaf "new" ⟨⟨0, 0⟩, ⟨-1, 0⟩⟩) = true := by
  decide

/-- C3 amended: a file first observed in the post-run walk (sentinel
`preTimes`, `forcedAtime = (-2,0)`, `originalMtime = (-1,0)`) is never
classified as a prerequisite provided its observed post-run mtime seconds
are nonnegative (any post-epoch timestamp): clause 1 then fires because the
sentinel mtime seconds are `-1`. -/
theorem new_file_never_prereq (tree1 : Tree) (p : String) (sb : FileStat)
    (habsent : tfindPath p tree1 = none) (hm : 0 ≤ sb.st_mtime.tv_sec) :
    post_walk_prereq (post_entry tree1 p sb) = false := by
  unfold post_entry
  rw [habsent]
  unfold post_walk_prereq
  simp only []
  rw [if_pos]
  omega

/-- Witness for C3's amended theorem at a concrete input. -/
theorem new_file_never_prereq_witness :
    tfindPath "new" Tree.leaf = none ∧
    (0 : Int) ≤ (FileStat.mk ⟨20, 0⟩ ⟨10, 3⟩).st_mtime.tv_sec ∧
    post_walk_prereq (post_entry .leaf "new" ⟨⟨20, 0⟩, ⟨10, 3⟩⟩) = false :=
  ⟨rfl, by decide, new_file_never_prereq .leaf "new" ⟨⟨20, 0⟩, ⟨10, 3⟩⟩ rfl (by decide)⟩

/-- C4 counterexample: for a regular file with mtime `(100, 7)` the pre-run
walker records `forcedAtime = (99, 0)` — the nanoseconds are set to zero,
not carried over from the mtime as the claim states (`(99, 7)`). -/
theorem pre_forced_atime_cex :
    (nftw_pre_callback .leaf "f" ⟨⟨0, 0⟩, ⟨100, 7⟩⟩ true).2 =
      some ("f", ⟨99, 0⟩, ⟨100, 7⟩) ∧
    (⟨99, 0⟩ : Timespec) ≠ ⟨99, 7⟩ := by
  exact ⟨by decide, by decide⟩

/-- C4 amended: for every regular, non-excluded file recorded by the pre-run
walker, the recorded `forcedAtime` is the file's mtime seconds minus one
with the nanoseconds set to zero, the recorded original mtime is the file's
mtime unchanged, and applying the pair `(forcedAtime, originalMtime)` via
`utimensat` as the file's new (atime, mtime) leaves the mtime value
unchanged while pushing the atime one second behind it. -/
theorem pre_forced_atime (t : Tree) (fpath : String) (sb : FileStat)
    (hskip : skipPath fpath = false) :
    (nftw_pre_callback t fpath sb true).2 =
      some (normalizePath fpath, ⟨sb.st_mtime.tv_sec - 1, 0⟩,
        ⟨sb.st_mtime.tv_sec, sb.st_mtime.tv_nsec⟩) ∧
    (applyUtimensat sb (pre_utimensat_arg sb)).st_mtime = sb.st_mtime ∧
    (applyUtimensat sb (pre_utimensat_arg sb)).st_atime =
      ⟨sb.st_mtime.tv_sec - 1, 0⟩ := by
  refine ⟨?_, ?_, rfl⟩
  · simp [nftw_pre_callback, hskip, pre_utimensat_arg]
  · show (⟨sb.st_mtime.tv_sec, sb.st_mtime.tv_nsec⟩ : Timespec) = sb.st_mtime
    cases sb.st_mtime
    rfl

/-- Witness for C4's amended theorem at a concrete input. -/
theorem pre_forced_atime_witness :
    skipPath "src/dep.c" = false ∧
    (nftw_pre_callback .leaf "src/dep.c" ⟨⟨3, 4⟩, ⟨100, 7⟩⟩ true).2 =
      some ("src/dep.c", ⟨99, 0⟩, ⟨100, 7⟩) :=
  ⟨by decide,
    ((pre_forced_atime .leaf "src/dep.c" ⟨⟨3, 4⟩, ⟨100, 7⟩⟩ (by decide)).1)⟩

/-- C5 counterexample: two pre-run walk visits yield the same normalized
path `p` with different mtimes (as when two watch directories overlap); the
snapshot store afterwards holds the times recorded from the EARLIER visit
(`times1 = ((1,0), (2,0))`, from mtime `(2,0)`), not the later one
(`((5,0), (6,0))`): libc `tsearch` finds the existing node and does not
replace it, so "the later insertion wins silently" is false. -/
theorem pre_walk_collision_cex :
    tfindPath "p" (pre_tree [⟨"p", ⟨⟨0, 0⟩, ⟨2, 0⟩⟩, true⟩, ⟨"p", ⟨⟨0, 0⟩, ⟨6, 0⟩⟩, true⟩]) =
      some ⟨"p", ⟨1, 0⟩, ⟨2, 0⟩, ⟨0, 0⟩, ⟨0, 0⟩⟩ ∧
    (⟨1, 0⟩ : Timespec) ≠ ⟨5, 0⟩ := by
  exact ⟨by decide, by decide⟩

/-- C5 amended: if two insertions carry the same path key, the EARLIER one
wins silently: on a search tree satisfying the BST invariant that already
contains an entry with the new entry's path, `tsearch` returns the existing
node without inserting or replacing, leaving the store unchanged (and
reporting no error, since the returned node is non-null). -/
theorem tsearch_earlier_insertion_wins (t : Tree) (e : pathentry_s)
    (hb : isBST t = true) (hc : containsPath e.path t = true) :
    tsearchIns e t = t := by
  induction t with
  | leaf => simp [containsPath, tfindPath] at hc
  | node l x r ihl ihr =>
    simp only [isBST, Bool.and_eq_true] at hb
    obtain ⟨⟨⟨hal, har⟩, hbl⟩, hbr⟩ := hb
    unfold containsPath tfindPath at hc
    cases hcmp : pathcmp e.path x.path with
    | lt =>
      rw [hcmp] at hc
      simp only [tsearchIns, hcmp]
      rw [ihl hbl hc]
    | eq =>
      simp [tsearchIns, hcmp]
    | gt =>
      rw [hcmp] at hc
      simp only [tsearchIns, hcmp]
      rw [ihr hbr hc]

/-- Witness for C5's amended theorem at a concrete input. -/
theorem tsearch_earlier_insertion_wins_witness :
    isBST (tsearchIns ⟨"p", ⟨1, 0⟩, ⟨2, 0⟩, ⟨0, 0⟩, ⟨0, 0⟩⟩ .leaf) = true ∧
    containsPath "p" (tsearchIns ⟨"p", ⟨1, 0⟩, ⟨2, 0⟩, ⟨0, 0⟩, ⟨0, 0⟩⟩ .leaf) = true ∧
    tsearchIns ⟨"p", ⟨5, 0⟩, ⟨6, 0⟩, ⟨0, 0⟩, ⟨0, 0⟩⟩
        (tsearchIns ⟨"p", ⟨1, 0⟩, ⟨2, 0⟩, ⟨0, 0⟩, ⟨0, 0⟩⟩ .leaf) =
      tsearchIns ⟨"p", ⟨1, 0⟩, ⟨2, 0⟩, ⟨0, 0⟩, ⟨0, 0⟩⟩ .leaf :=
  ⟨by decide, by decide,
    tsearch_earlier_insertion_wins _ ⟨"p", ⟨5, 0⟩, ⟨6, 0⟩, ⟨0, 0⟩, ⟨0, 0⟩⟩
      (by decide) (by decide)⟩

theorem linePath_post_walk_visit (v : Nat) (p : pathentry_s) (l : OutLine)
    (h : post_walk_visit v p = some l) : l.linePath = p.path := by
  unfold post_walk_visit at h
  by_cases h1 : post_walk_prereq p = true
  · rw [if_pos h1] at h
    cases h
    rfl
  · rw [if_neg h1] at h
    by_cases h2 : v ≠ 0
    · rw [if_pos h2] at h
      cases h
      rfl
    · rw [if_neg h2] at h
      cases h

theorem post_entry_path (t1 : Tree) (p : String) (sb : FileStat) :
    (post_entry t1 p sb).path = p := by
  unfold post_entry
  cases tfindPath p t1 <;> rfl

theorem mem_post_fold (tree1 : Tree) (fs : List WalkFile) :
    ∀ (t : Tree) (x : pathentry_s),
      x ∈ inorder (fs.foldl
        (fun u f => nftw_post_callback tree1 u f.fpath f.sb f.isFile) t) →
      x ∈ inorder t ∨ ∃ f ∈ fs, x.path = normalizePath f.fpath := by
  induction fs with
  | nil =>
    intro t x hx
    exact Or.inl hx
  | cons f fs ih =>
    intro t x hx
    have hx2 := ih (nftw_post_callback tree1 t f.fpath f.sb f.isFile) x hx
    rcases hx2 with hx2 | ⟨g, hg, hgp⟩
    · unfold nftw_post_callback at hx2
      by_cases h1 : f.isFile = false
      · rw [if_pos h1] at hx2
        exact Or.inl hx2
      · rw [if_neg h1] at hx2
        by_cases h2 : skipPath f.fpath = true
        · rw [if_pos h2] at hx2
          exact Or.inl hx2
        · rw [if_neg h2] at hx2
          rcases mem_inorder_tsearchIns hx2 with rfl | hx3
          · exact Or.inr ⟨f, List.mem_cons_self _ _, post_entry_path _ _ _⟩
          · exact Or.inl hx3
    · exact Or.inr ⟨g, List.mem_cons_of_mem _ hg, hgp⟩

theorem output_empty_of_no_prereq (entries : List pathentry_s)
    (h : prereqPaths (post_walk_output entries 0) = []) :
    post_walk_output entries 0 = [] := by
  induction entries with
  | nil => rfl
  | cons p es ih =>
    by_cases hp : post_walk_prereq p = true
    · exfalso
      simp [post_walk_output, post_walk_visit, hp, prereqPaths,
        List.filterMap_cons] at h
    · have hvp : post_walk_visit 0 p = none := by
        simp [post_walk_visit, hp]
      simp only [post_walk_output, List.filterMap_cons, hvp] at h ⊢
      exact ih h

/-- C9: `twalk` visits the snapshot-store entries in `strcmp`-sorted path
order (the in-order traversal of the `pathcmp`-keyed search tree), so for
any collection of entries with pairwise-distinct paths the classifier's
visiting sequence is sorted by path, the emitted lines appear in ascending
path order, and the resulting sequence is identical for every insertion
order the walkers could have produced. -/
theorem twalk_sorted_deterministic (es fs : List pathentry_s) (v : Nat)
    (hperm : es.Perm fs) (hnd : (es.map pathentry_s.path).Nodup) :
    (inorder (insertAll .leaf es)).Pairwise pathLt ∧
    (post_walk_output (inorder (insertAll .leaf es)) v).Pairwise
      (fun l1 l2 => l1.linePath.data < l2.linePath.data) ∧
    inorder (insertAll .leaf es) = inorder (insertAll .leaf fs) := by
  have hnd2 : (fs.map pathentry_s.path).Nodup :=
    (hperm.map pathentry_s.path).nodup_iff.mp hnd
  have hp1 := inorder_insertAll_perm es .leaf (by simpa [inorder] using hnd)
  have hp2 := inorder_insertAll_perm fs .leaf (by simpa [inorder] using hnd2)
  simp only [inorder, List.nil_append] at hp1 hp2
  have hs1 : (inorder (insertAll .leaf es)).Pairwise pathLt :=
    pairwise_inorder (isBST_insertAll es .leaf rfl)
  have hs2 : (inorder (insertAll .leaf fs)).Pairwise pathLt :=
    pairwise_inorder (isBST_insertAll fs .leaf rfl)
  have hq : (inorder (insertAll .leaf es)).Perm (inorder (insertAll .leaf fs)) :=
    hp1.trans (hperm.trans hp2.symm)
  refine ⟨hs1, ?_, List.eq_of_perm_of_sorted hq hs1 hs2⟩
  refine List.Pairwise.filterMap (post_walk_visit v) ?_ hs1
  intro a b hab x hx y hy
  rw [Option.mem_def] at hx hy
  rw [linePath_post_walk_visit v a x hx, linePath_post_walk_visit v b y hy]
  exact hab

/-- Witness for C9 at a concrete input: two insertion orders of the same
two entries produce the same in-order sequence. -/
theorem twalk_sorted_deterministic_witness :
    ([(⟨"b", ⟨0, 0⟩, ⟨0, 0⟩, ⟨0, 0⟩, ⟨0, 0⟩⟩ : pathentry_s),
        ⟨"a", ⟨0, 0⟩, ⟨0, 0⟩, ⟨0, 0⟩, ⟨0, 0⟩⟩].Perm
      [⟨"a", ⟨0, 0⟩, ⟨0, 0⟩, ⟨0, 0⟩, ⟨0, 0⟩⟩,
        ⟨"b", ⟨0, 0⟩, ⟨0, 0⟩, ⟨0, 0⟩, ⟨0, 0⟩⟩]) ∧
    inorder (insertAll .leaf
        [⟨"b", ⟨0, 0⟩, ⟨0, 0⟩, ⟨0, 0⟩, ⟨0, 0⟩⟩,
          ⟨"a", ⟨0, 0⟩, ⟨0, 0⟩, ⟨0, 0⟩, ⟨0, 0⟩⟩]) =
      inorder (insertAll .leaf
        [⟨"a", ⟨0, 0⟩, ⟨0, 0⟩, ⟨0, 0⟩, ⟨0, 0⟩⟩,
          ⟨"b", ⟨0, 0⟩, ⟨0, 0⟩, ⟨0, 0⟩, ⟨0, 0⟩⟩]) :=
  ⟨List.Perm.swap _ _ _,
    (twalk_sorted_deterministic _ _ 0 (List.Perm.swap _ _ _) (by decide)).2.2⟩

/-- C10: a path recorded by the pre-run walker but absent from the post-run
walk produces no output line at all — neither a prerequisite line nor a
verbose diagnostic line — because `twalk` iterates `tree2`, which holds only
entries observed by the post-run walk. -/
theorem pre_only_path_no_output (preFiles postFiles : List WalkFile)
    (cmdStatus : Int) (verbosity : Nat) (outfileGiven : Bool) (p : String)
    (hpre : containsPath p (pre_tree preFiles) = true)
    (hpost : ∀ f ∈ postFiles, normalizePath f.fpath ≠ p) :
    ∀ l ∈ (run_main preFiles postFiles cmdStatus verbosity outfileGiven).output,
      OutLine.linePath l ≠ p := by
  intro l hl
  rcases List.mem_filterMap.mp hl with ⟨e, he, hv⟩
  have hle : l.linePath = e.path := linePath_post_walk_visit _ _ _ hv
  have hmem := mem_post_fold (pre_tree preFiles) postFiles .leaf e he
  rcases hmem with h | ⟨f, hf, hfp⟩
  · simp [inorder] at h
  · rw [hle, hfp]
    exact hpost f hf

/-- Witness for C10 at a concrete input: `gone` exists only pre-run, `kept`
only post-run; applying the theorem to the diagnostic line emitted for
`kept` shows it does not mention `gone`. -/
theorem pre_only_path_no_output_witness :
    OutLine.linePath
        (OutLine.diagLine ⟨"kept", ⟨-2, 0⟩, ⟨-1, 0⟩, ⟨9, 0⟩, ⟨10, 0⟩⟩) ≠ "gone" :=
  pre_only_path_no_output
    [⟨"gone", ⟨⟨0, 0⟩, ⟨10, 0⟩⟩, true⟩]
    [⟨"kept", ⟨⟨9, 0⟩, ⟨10, 0⟩⟩, true⟩]
    0 1 true "gone" (by decide) (by decide)
    (OutLine.diagLine ⟨"kept", ⟨-2, 0⟩, ⟨-1, 0⟩, ⟨9, 0⟩, ⟨10, 0⟩⟩) (by decide)

/-- C7: a non-zero exit of the wrapped command does not abort the run — the
output (post-run walk plus classification) is the same whatever `system`
returned — and, with all `insist`ed syscalls succeeding, the final exit
status is nonzero (`EXIT_FAILURE`) exactly when the wrapped command
failed. -/
theorem command_failure_not_aborting (preFiles postFiles : List WalkFile)
    (cmdStatus : Int) (verbosity : Nat) (outfileGiven : Bool) :
    (∀ c : Int,
      (run_main preFiles postFiles cmdStatus verbosity outfileGiven).output =
      (run_main preFiles postFiles c verbosity outfileGiven).output) ∧
    (run_main preFiles postFiles cmdStatus verbosity outfileGiven).output =
      post_walk_output (inorder (post_tree (pre_tree preFiles) postFiles))
        verbosity ∧
    (run_main preFiles postFiles cmdStatus verbosity outfileGiven).rc =
      (if cmdStatus ≠ 0 then 1 else 0) :=
  ⟨fun _ => rfl, rfl, rfl⟩

/-- C8 counterexample: zero prerequisites are found, an output file was
specified, yet verbosity keeps the file on disk: the non-prerequisite entry
writes a `##` diagnostic line into the outfile, so its size is nonzero and
`main` does not unlink it.  This refutes "regardless of verbosity". -/
theorem outfile_kept_verbose_cex :
    prereqPaths (run_main [⟨"a", ⟨⟨0, 0⟩, ⟨10, 0⟩⟩, true⟩]
      [⟨"a", ⟨⟨9, 0⟩, ⟨10, 0⟩⟩, true⟩] 0 1 true).output = [] ∧
    (run_main [⟨"a", ⟨⟨0, 0⟩, ⟨10, 0⟩⟩, true⟩]
      [⟨"a", ⟨⟨9, 0⟩, ⟨10, 0⟩⟩, true⟩] 0 1 true).outfileDeleted = false := by
  exact ⟨by decide, by decide⟩

/-- C8 amended: the outfile is deleted exactly when the emitted output is
empty; in particular, when zero prerequisites are found in non-verbose mode
(where only prerequisite lines are ever written) the outfile is always
deleted. -/
theorem outfile_cleanup (preFiles postFiles : List WalkFile)
    (cmdStatus : Int) (verbosity : Nat)
    (hv : verbosity = 0)
    (hzero : prereqPaths
      (run_main preFiles postFiles cmdStatus verbosity true).output = []) :
    ((run_main preFiles postFiles cmdStatus verbosity true).outfileDeleted = true ↔
      (run_main preFiles postFiles cmdStatus verbosity true).output = []) ∧
    (run_main preFiles postFiles cmdStatus verbosity true).outfileDeleted = true := by
  subst hv
  constructor
  · simp [run_main, List.isEmpty_iff]
  · have hempty := output_empty_of_no_prereq _ hzero
    simp only [run_main] at hempty ⊢
    simp [hempty]

/-- Witness for C8's amended theorem at a concrete input. -/
theorem outfile_cleanup_witness :
    prereqPaths (run_main [⟨"a", ⟨⟨0, 0⟩, ⟨10, 0⟩⟩, true⟩]
      [⟨"a", ⟨⟨9, 0⟩, ⟨10, 0⟩⟩, true⟩] 0 0 true).output = [] ∧
    (run_main [⟨"a", ⟨⟨0, 0⟩, ⟨10, 0⟩⟩, true⟩]
      [⟨"a", ⟨⟨9, 0⟩, ⟨10, 0⟩⟩, true⟩] 0 0 true).outfileDeleted = true :=
  ⟨by decide,
    (outfile_cleanup [⟨"a", ⟨⟨0, 0⟩, ⟨10, 0⟩⟩, true⟩]
      [⟨"a", ⟨⟨9, 0⟩, ⟨10, 0⟩⟩, true⟩] 0 0 rfl (by decide)).2⟩

/-- C2 counterexample: the probe does NOT force-set the temp file's mtime
one second into the past.  On a fully successful probe with creation mtime
`(100, 5)`, the only timestamp write is `futimens` setting the ATIME to
`(99, 0)` with the mtime omitted (`UTIME_OMIT`), and the file's mtime is
still `(100, 5)` afterwards — not `(99, 5)` or `(99, 0)`. -/
theorem probe_mtime_not_forced_cex :
    (runProbe "d" "1" ⟨100, 5⟩ ⟨100, 6⟩ none).1.tmpMtime = ⟨100, 5⟩ ∧
    ProbeEvent.futimensE ⟨99, 0⟩ true ∈
      (runProbe "d" "1" ⟨100, 5⟩ ⟨100, 6⟩ none).1.trace ∧
    (⟨100, 5⟩ : Timespec) ≠ ⟨99, 5⟩ ∧ (⟨100, 5⟩ : Timespec) ≠ ⟨99, 0⟩ := by
  exact ⟨by decide, by decide, by decide, by decide⟩

/-- C2 amended: for every watch directory, the fully successful probe
creates the uniquely named temp file `dir/audit.PID.tmp`, writes the fixed
payload `"data\n"`, force-sets the temp file's ATIME to one second before
its current mtime (the mtime itself is omitted from the `futimens` call and
stays unchanged), then reads the file back, stats it, and deletes it — in
exactly that syscall order. -/
theorem probe_success_behavior (dir pid : String) (cT pA : Timespec) :
    (runProbe dir pid cT pA none).1.trace =
      [.openDirE, .closeDirE, .createE (dir ++ "/audit." ++ pid ++ ".tmp"),
        .writeE "data\n", .fstatE, .futimensE ⟨cT.tv_sec - 1, 0⟩ true,
        .closeE, .openE, .readE, .closeE, .statE, .unlinkE] ∧
    (runProbe dir pid cT pA none).1.tmpExists = false ∧
    (runProbe dir pid cT pA none).1.tmpMtime = cT ∧
    (runProbe dir pid cT pA none).1.createCount = 1 ∧
    (runProbe dir pid cT pA none).1.unlinkCount = 1 :=
  ⟨rfl, rfl, rfl, rfl, rfl⟩

/-- C6 counterexample: when the `write` to the just-created temp file fails,
`insist` exits immediately and the temp file is left on disk — it was
created once and never unlinked.  This refutes "the file is still removed
before the process exits" for error exit paths. -/
theorem probe_tmp_leaked_cex :
    (runProbe "d" "1" ⟨100, 5⟩ ⟨100, 6⟩ (some 4)).1.tmpExists = true ∧
    (runProbe "d" "1" ⟨100, 5⟩ ⟨100, 6⟩ (some 4)).2 = false ∧
    (runProbe "d" "1" ⟨100, 5⟩ ⟨100, 6⟩ (some 4)).1.createCount = 1 ∧
    (runProbe "d" "1" ⟨100, 5⟩ ⟨100, 6⟩ (some 4)).1.unlinkCount = 0 := by
  exact ⟨by decide, by decide, by decide, by decide⟩

/-- C6 amended: the probe creates and deletes exactly one temporary file per
watch directory only on the all-successful path; if any `insist`ed syscall
after the file's creation fails (write 4, fstat 5, futimens 6, close 7,
reopen 8, read 9, close 10, stat 11, or unlink 12), the process exits with
the temporary file still on disk — there is no scoped cleanup. -/
theorem probe_cleanup_only_on_success (dir pid : String) (cT pA : Timespec)
    (failAt : Option Nat) :
    (failAt = none →
      (runProbe dir pid cT pA failAt).1.createCount = 1 ∧
      (runProbe dir pid cT pA failAt).1.unlinkCount = 1 ∧
      (runProbe dir pid cT pA failAt).1.tmpExists = false) ∧
    (∀ k : Nat, failAt = some k → 4 ≤ k → k ≤ 12 →
      (runProbe dir pid cT pA failAt).1.tmpExists = true ∧
      (runProbe dir pid cT pA failAt).2 = false) := by
  constructor
  · intro h
    subst h
    exact ⟨rfl, rfl, rfl⟩
  · intro k hk h4 h12
    subst hk
    interval_cases k <;> exact ⟨rfl, rfl⟩

/-- Witness for C6's amended theorem: a successful probe leaves no temp
file, while a probe whose `read` (syscall 9) fails leaves it behind. -/
theorem probe_cleanup_only_on_success_witness :
    (runProbe "w" "7" ⟨50, 0⟩ ⟨50, 1⟩ none).1.tmpExists = false ∧
    (runProbe "w" "7" ⟨50, 0⟩ ⟨50, 1⟩ (some 9)).1.tmpExists = true :=
  ⟨((probe_cleanup_only_on_success "w" "7" ⟨50, 0⟩ ⟨50, 1⟩ none).1 rfl).2.2,
    ((probe_cleanup_only_on_success "w" "7" ⟨50, 0⟩ ⟨50, 1⟩ (some 9)).2 9 rfl
      (by decide) (by decide)).1⟩

end Pmaudit
